import Mathlib

/-
Verification of the role-based access-control engine in
`roles/roles_common_async.js` (the `Roles` object of the alanning:roles
package port).  The two Mongo collections `Meteor.roles` and
`Meteor.roleAssignment` are modelled as lists of records; `_id` values of
role documents are the role names themselves, `_id` values of assignment
documents are modelled as natural numbers drawn from a counter.  Errors
thrown by the JavaScript code are modelled with `Except String`; the
converge-until-stable update loops are modelled with an explicit fuel
parameter, `none` standing for a loop that has not converged within the
given fuel.
-/

namespace Roles

/-- A Mongo subdocument holding a single `_id` reference, as used by the
`children`, `role`, `user` and `inheritedRoles` fields. -/
structure DbRef where
  _id : String
deriving DecidableEq

/-- A document of the `Meteor.roles` collection:
`{_id: roleName, children: [{_id}, ...]}`. -/
structure Role where
  _id : String
  children : List DbRef
deriving DecidableEq

/-- A document of the `Meteor.roleAssignment` collection.  `scope = none`
models the `null` (global) scope.  `inheritedRoles = none` models a
document on which the field has not been set yet (the insert in
`_addUserToRoleAsync` first writes the document without the field and sets
it with a follow-up update). -/
structure Assignment where
  _id : Nat
  user : DbRef
  role : DbRef
  scope : Option String
  inheritedRoles : Option (List DbRef)
deriving DecidableEq

/-- The shared state: both collections plus the id counter used for
freshly inserted assignment documents. -/
structure DB where
  roles : List Role
  roleAssignment : List Assignment
  nextId : Nat
deriving DecidableEq

/-- Well-formedness of the modelled state: every stored assignment `_id`
was produced by the counter, and ids are pairwise distinct.  Mongo
guarantees the uniqueness through the `_id` index; the model carries it as
an explicit side condition. -/
def DB.wf (db : DB) : Prop :=
  (∀ a ∈ db.roleAssignment, a._id < db.nextId) ∧
    (db.roleAssignment.map Assignment._id).Nodup

instance (db : DB) : Decidable db.wf := by
  unfold DB.wf; infer_instance

/-- JavaScript's `String.prototype.trim`: the string with leading and
trailing whitespace removed (structural definition over the character
list, so that concrete instances evaluate). -/
def jsTrim (s : String) : String :=
  ⟨((s.data.dropWhile Char.isWhitespace).reverse.dropWhile
      Char.isWhitespace).reverse⟩

/-- Validity of a role name as enforced by `_checkRoleName`: a non-empty
string equal to its own trim. -/
def roleNameValid (s : String) : Prop := s ≠ "" ∧ jsTrim s = s

instance (s : String) : Decidable (roleNameValid s) := by
  unfold roleNameValid; infer_instance

/-- Validity of a scope name as enforced by `_checkScopeName`: `null`
(`none`) is explicitly allowed, otherwise the role-name rule applies. -/
def scopeNameValid : Option String → Prop
  | none => True
  | some s => s ≠ "" ∧ jsTrim s = s

instance (s : Option String) : Decidable (scopeNameValid s) := by
  cases s <;> (unfold scopeNameValid; infer_instance)

/-- `_checkRoleName`: throws unless the name is a non-empty, trimmed
string (the `typeof` test cannot fail in the model, names being strings). -/
def _checkRoleName (roleName : String) : Except String Unit :=
  if roleName = "" ∨ jsTrim roleName ≠ roleName then
    .error ("Invalid role name " ++ roleName ++ ".")
  else .ok ()

/-- `_checkScopeName`: `null` is accepted, otherwise as `_checkRoleName`. -/
def _checkScopeName (scopeName : Option String) : Except String Unit :=
  match scopeName with
  | none => .ok ()
  | some s =>
    if s = "" ∨ jsTrim s ≠ s then
      .error ("Invalid scope name " ++ s ++ ".")
    else .ok ()

theorem _checkRoleName_ok {s : String} (h : roleNameValid s) :
    _checkRoleName s = .ok () := by
  unfold _checkRoleName
  rw [if_neg]
  rintro (h1 | h2)
  · exact h.1 h1
  · exact h2 h.2

theorem _checkScopeName_ok {s : Option String} (h : scopeNameValid s) :
    _checkScopeName s = .ok () := by
  cases s with
  | none => rfl
  | some s =>
    show (if s = "" ∨ jsTrim s ≠ s then
        Except.error ("Invalid scope name " ++ s ++ ".") else .ok ()) = .ok ()
    rw [if_neg]
    rintro (h1 | h2)
    · exact h.1 h1
    · exact h2 h.2

/-- `Meteor.roles.findOneAsync({_id: name})`. -/
def findOneRole (db : DB) (name : String) : Option Role :=
  db.roles.find? (fun r => r._id == name)

/-- `Meteor.roleAssignment.findOneAsync({user._id, role._id, scope})`. -/
def findOneAssignment (db : DB) (userId roleName : String)
    (scope : Option String) : Option Assignment :=
  db.roleAssignment.find? (fun a =>
    a.user._id == userId && a.role._id == roleName && a.scope == scope)

/-- `Meteor.roles.insertAsync(doc)`; fails on a duplicate `_id` (unique
index), returns the inserted `_id` otherwise. -/
def insertRole (db : DB) (r : Role) : Except String (String × DB) :=
  if (findOneRole db r._id).isSome then .error "duplicate key"
  else .ok (r._id, { db with roles := db.roles ++ [r] })

/-- `Meteor.roleAssignment.insertAsync({user, role, scope})`: the new
document has no `inheritedRoles` field yet; returns the fresh `_id`. -/
def insertAssignment (db : DB) (userId roleName : String)
    (scope : Option String) : DB × Nat :=
  ({ db with
      roleAssignment := db.roleAssignment ++
        [{ _id := db.nextId, user := ⟨userId⟩, role := ⟨roleName⟩,
           scope := scope, inheritedRoles := none }],
      nextId := db.nextId + 1 },
   db.nextId)

/-- `Meteor.roleAssignment.updateAsync(id, {$set: {user, role, scope}})`:
update by `_id` (unique under `DB.wf`). -/
def updateAssignmentSet (db : DB) (i : Nat) (userId roleName : String)
    (scope : Option String) : DB :=
  { db with
      roleAssignment := db.roleAssignment.map (fun a =>
        if a._id == i then
          { a with user := ⟨userId⟩, role := ⟨roleName⟩, scope := scope }
        else a) }

/-- `Meteor.roleAssignment.updateAsync({_id}, {$set: {inheritedRoles}})`. -/
def setInheritedRoles (db : DB) (i : Nat) (names : List String) : DB :=
  { db with
      roleAssignment := db.roleAssignment.map (fun a =>
        if a._id == i then
          { a with inheritedRoles := some (names.map (fun r => ⟨r⟩)) }
        else a) }

/-- `_getInheritedRoleNamesAsync(role)`.  The source iterates with
`for (const r in nestedRoles)` where `nestedRoles` is a JavaScript `Set`;
`for…in` enumerates an object's own enumerable property keys and a `Set`
stores its elements in internal slots, not as properties, so the loop body
never executes and the accumulated `inheritedRoles` set is returned empty. -/
def _getInheritedRoleNamesAsync (_db : DB) (_role : Role) : List String :=
  []

/-- Direct child names of a role, read from the role store; a name without
a role document contributes no children. -/
def childNamesOf (db : DB) (name : String) : List String :=
  match findOneRole db name with
  | none => []
  | some r => r.children.map DbRef._id

/-- Fixed-point iteration collecting everything reachable from `acc` via
`children` edges. -/
def closureStep (db : DB) : Nat → List String → List String
  | 0, acc => acc
  | n + 1, acc =>
    let next :=
      (acc.flatMap (childNamesOf db)).filter (fun c => !(acc.contains c))
    match next with
    | [] => acc
    | _ => closureStep db n (acc ++ next)

/-- Modelled from the spec: `inheritedClosureOf(role) = {role} ∪
descendantsOf(role)`, the transitive closure of the `children` relation
starting from `role`, the value the spec requires in `inheritedRoles`
(§4.2).  This is the intended semantics of `_getInheritedRoleNames`,
stated here independently of the source for comparison. -/
def spec_inheritedClosureOf (db : DB) (roleName : String) : List String :=
  closureStep db db.roles.length [roleName]

/-- `createRoleAsync(roleName, {unlessExists})`.  Mirrors the source: when
the role already exists the update with `$setOnInsert` (and no upsert)
changes nothing and the function returns `null` at once; the
`if (!insertedId)` test after the insert branch is kept even though a
Mongo insert of a validated name always returns that name. -/
def createRoleAsync (db : DB) (roleName : String) (unlessExists : Bool) :
    Except String (Option String × DB) :=
  match _checkRoleName roleName with
  | .error e => .error e
  | .ok _ =>
    match findOneRole db roleName with
    | some _ => .ok (none, db)
    | none =>
      match insertRole db { _id := roleName, children := [] } with
      | .error e => .error e
      | .ok (insertedId, db1) =>
        if insertedId = "" then
          if unlessExists then .ok (none, db1)
          else .error ("Role " ++ roleName ++ " already exists.")
        else .ok (some insertedId, db1)

/-- The conditional `$push` of `_addRoleToParentAsync`:
`updateAsync({_id: parentName, children._id: {$ne: role._id}}, {$push:
{children: {_id: role._id}}})`.  Returns the updated store and the count
of matched documents (`0` when the parent is missing or already lists the
child, `1` otherwise, role `_id`s being unique). -/
def pushChildIfAbsent (db : DB) (parentName childName : String) : DB × Nat :=
  let hit := fun (r : Role) =>
    r._id == parentName && !(r.children.any (fun c => c._id == childName))
  ({ db with
      roles := db.roles.map (fun r =>
        if hit r then { r with children := r.children ++ [⟨childName⟩] }
        else r) },
   (db.roles.filter hit).length)

/-- The propagation update of `_addRoleToParentAsync`: every assignment
whose `inheritedRoles` contains the parent gets the listed names appended
(`$push` with `$each`, `multi: true`). -/
def pushInheritedEach (db : DB) (parentName : String) (adds : List String) :
    DB :=
  { db with
      roleAssignment := db.roleAssignment.map (fun a =>
        if (a.inheritedRoles.getD []).any (fun r => r._id == parentName) then
          { a with
              inheritedRoles :=
                some ((a.inheritedRoles.getD []) ++
                  adds.map (fun r => ⟨r⟩)) }
        else a) }

/-- `_addRoleToParentAsync(roleName, parentName)`: validates both names,
requires `roleName` to exist, runs the (broken) cycle check against
`_getInheritedRoleNamesAsync`, then conditionally pushes the child edge;
when the edge was newly added it extends the `inheritedRoles` of every
assignment inheriting the parent. -/
def _addRoleToParentAsync (db : DB) (roleName parentName : String) :
    Except String DB :=
  match _checkRoleName roleName with
  | .error e => .error e
  | .ok _ =>
  match _checkRoleName parentName with
  | .error e => .error e
  | .ok _ =>
  match findOneRole db roleName with
  | none => .error ("Role " ++ roleName ++ " does not exist.")
  | some role =>
    if (_getInheritedRoleNamesAsync db role).contains parentName then
      .error ("Roles " ++ roleName ++ " and " ++ parentName ++
        " would form a cycle.")
    else
      match pushChildIfAbsent db parentName role._id with
      | (db1, count) =>
        if count = 0 then .ok db1
        else
          .ok (pushInheritedEach db1 parentName
            (role._id :: _getInheritedRoleNamesAsync db1 role))

/-- `addRolesToParentAsync(rolesNames, parentName)` with the names already
an array. -/
def addRolesToParentAsync (db : DB) (rolesNames : List String)
    (parentName : String) : Except String DB :=
  rolesNames.foldlM (fun acc roleName =>
    _addRoleToParentAsync acc roleName parentName) db

/-- `_addUserToRoleAsync(userId, roleName, {scope, ifExists})`.  An empty
`userId` models the falsy early return.  When an assignment for the exact
triple exists it is overwritten in place; otherwise a new document is
inserted and its `inheritedRoles` immediately set to the assigned role
followed by `_getInheritedRoleNamesAsync` of the role. -/
def _addUserToRoleAsync (db : DB) (userId roleName : String)
    (scope : Option String) (ifExists : Bool) : Except String DB :=
  match _checkRoleName roleName with
  | .error e => .error e
  | .ok _ =>
  match _checkScopeName scope with
  | .error e => .error e
  | .ok _ =>
  if userId = "" then .ok db
  else
    match findOneRole db roleName with
    | none =>
      if ifExists then .ok db
      else .error ("Role " ++ roleName ++ " does not exist.")
    | some role =>
      match findOneAssignment db userId roleName scope with
      | some existingAssignment =>
        .ok (updateAssignmentSet db existingAssignment._id userId roleName
          scope)
      | none =>
        match insertAssignment db userId roleName scope with
        | (db1, insertedId) =>
          .ok (setInheritedRoles db1 insertedId
            (roleName :: _getInheritedRoleNamesAsync db1 role))

/-- `addUsersToRolesAsync(users, roles, options)` with users given as ids
and arrays already ensured. -/
def addUsersToRolesAsync (db : DB) (users roles : List String)
    (scope : Option String) (ifExists : Bool) : Except String DB :=
  match _checkScopeName scope with
  | .error e => .error e
  | .ok _ =>
    users.foldlM (fun acc id =>
      roles.foldlM (fun acc2 role =>
        _addUserToRoleAsync acc2 id role scope ifExists) acc) db

/-- Modelled from the spec: `setUserRolesAsync` delegates each grant to the
synchronous `Roles._addUserToRole` of `roles/roles_common.js`, a source
file not present here.  Per §4.4 of the spec, `addUserToRole` fails with
`NotFound` unless the role exists (silently returning under `ifExists`),
overwrites an existing assignment for the exact (principal, role, scope)
triple in place, and otherwise inserts a new record whose `inheritedRoles`
is immediately set to `inheritedClosureOf(role)`. -/
def spec_addUserToRole (db : DB) (userId roleName : String)
    (scope : Option String) (ifExists : Bool) : Except String DB :=
  match _checkRoleName roleName with
  | .error e => .error e
  | .ok _ =>
  match _checkScopeName scope with
  | .error e => .error e
  | .ok _ =>
  if userId = "" then .ok db
  else
    match findOneRole db roleName with
    | none =>
      if ifExists then .ok db
      else .error ("Role " ++ roleName ++ " does not exist.")
    | some _ =>
      match findOneAssignment db userId roleName scope with
      | some existingAssignment =>
        .ok (updateAssignmentSet db existingAssignment._id userId roleName
          scope)
      | none =>
        match insertAssignment db userId roleName scope with
        | (db1, insertedId) =>
          .ok (setInheritedRoles db1 insertedId
            (spec_inheritedClosureOf db roleName))

/-- `setUserRolesAsync(users, roles, options)`: per user, first
`removeAsync` of every assignment of that user (restricted to the
requested scope unless `anyScope`), then one add-user-to-role call per
requested role. -/
def setUserRolesAsync (db : DB) (users roles : List String)
    (scope : Option String) (anyScope ifExists : Bool) : Except String DB :=
  match _checkScopeName scope with
  | .error e => .error e
  | .ok _ =>
    users.foldlM (fun acc id =>
      let cleared :=
        { acc with
            roleAssignment := acc.roleAssignment.filter (fun a =>
              !(a.user._id == id && (anyScope || a.scope == scope))) }
      roles.foldlM (fun acc2 role =>
        spec_addUserToRole acc2 id role scope ifExists) cleared) db

/-- `_removeUserFromRoleAsync(userId, roleName, {scope, anyScope})`:
removes every assignment matching user and role, and the scope too unless
`anyScope` is set. -/
def _removeUserFromRoleAsync (db : DB) (userId roleName : String)
    (scope : Option String) (anyScope : Bool) : Except String DB :=
  match _checkRoleName roleName with
  | .error e => .error e
  | .ok _ =>
  match _checkScopeName scope with
  | .error e => .error e
  | .ok _ =>
  if userId = "" then .ok db
  else
    .ok { db with
      roleAssignment := db.roleAssignment.filter (fun a =>
        !(a.user._id == userId && a.role._id == roleName &&
          (anyScope || a.scope == scope))) }

/-- The user loop of `removeUsersFromRolesAsync`; a falsy user makes the
whole function return (the source's `if (!user) return` exits the outer
loop, not just the iteration). -/
def removeUsersLoop (db : DB) (users roles : List String)
    (scope : Option String) (anyScope : Bool) : Except String DB :=
  match users with
  | [] => .ok db
  | user :: rest =>
    if user = "" then .ok db
    else
      match roles.foldlM (fun acc role =>
          _removeUserFromRoleAsync acc user role scope anyScope) db with
      | .error e => .error e
      | .ok db1 => removeUsersLoop db1 rest roles scope anyScope

/-- `removeUsersFromRolesAsync(users, roles, options)`. -/
def removeUsersFromRolesAsync (db : DB) (users roles : List String)
    (scope : Option String) (anyScope : Bool) : Except String DB :=
  match _checkScopeName scope with
  | .error e => .error e
  | .ok _ => removeUsersLoop db users roles scope anyScope

/-- A JavaScript primitive usable as a user id: the model distinguishes
strings from one representative non-string kind. -/
inductive JsId where
  | str (s : String)
  | num (n : Int)
deriving DecidableEq

/-- The `user` argument of `userIsInRoleAsync`: `null`/`undefined`, a
primitive id, or a user object whose `_id` field may be absent. -/
inductive UserArg where
  | null
  | prim (v : JsId)
  | obj (idField : Option JsId)
deriving DecidableEq

/-- Resolution of the user argument:
`if (user && typeof user === 'object') id = user._id else id = user`. -/
def resolveId : UserArg → Option JsId
  | .null => none
  | .prim v => some v
  | .obj f => f

/-- JavaScript falsiness of the resolved id (`if (!id) return false`). -/
def jsFalsyId : Option JsId → Bool
  | none => true
  | some (.str s) => s == ""
  | some (.num n) => n == 0

/-- The `asyncSome` helper: first-match short-circuit over the list. -/
def asyncSome (arr : List String) (p : String → Bool) : Bool :=
  match arr with
  | [] => false
  | e :: rest => if p e then true else asyncSome rest p

/-- `userIsInRoleAsync(user, roles, {scope, anyScope})`.  Mirrors the
source order: null entries are filtered from `roles`; an empty list
returns `false` before the scope name is even validated; then the resolved
id must be a truthy string; finally the first requested role with a
matching assignment (scope equal to the requested or the global `null`
scope unless `anyScope`) yields `true`. -/
def userIsInRoleAsync (db : DB) (user : UserArg)
    (roles : List (Option String)) (scope : Option String)
    (anyScope : Bool) : Except String Bool :=
  let roles1 := roles.filterMap (fun r => r)
  if roles1.isEmpty then .ok false
  else
    match _checkScopeName scope with
    | .error e => .error e
    | .ok _ =>
      let idv := resolveId user
      if jsFalsyId idv then .ok false
      else
        match idv with
        | some (.str id) =>
          .ok (asyncSome roles1 (fun roleName =>
            db.roleAssignment.any (fun a =>
              a.user._id == id &&
              (anyScope || (a.scope == scope || a.scope == none)) &&
              (a.inheritedRoles.getD []).any (fun r => r._id == roleName))))
        | _ => .ok false

/-- Count of assignment documents whose `scope` equals the given name. -/
def countScopeMatches (db : DB) (oldName : Option String) : Nat :=
  (db.roleAssignment.filter (fun a => a.scope == oldName)).length

/-- `updateAsync({scope: oldName}, {$set: {scope: newName}}, {multi})`:
rewrites the scalar `scope` field of every matching document in one call
and reports the matched count. -/
def updateScopeAll (db : DB) (oldName newName : Option String) : DB × Nat :=
  ({ db with
      roleAssignment := db.roleAssignment.map (fun a =>
        if a.scope == oldName then { a with scope := newName } else a) },
   countScopeMatches db oldName)

/-- The converge-until-stable loop of `renameScopeAsync`; `none` when the
fuel is exhausted before an update reports zero matches. -/
def renameScopeLoop (oldName newName : Option String) :
    Nat → DB → Option DB
  | 0, _ => none
  | fuel + 1, db =>
    match updateScopeAll db oldName newName with
    | (db1, count) =>
      if count > 0 then renameScopeLoop oldName newName fuel db1
      else some db1

/-- `renameScopeAsync(oldName, newName)`: validates both names, returns at
once when they are equal, and otherwise re-issues the filtered update
until it reports zero matches. -/
def renameScopeAsync (fuel : Nat) (oldName newName : Option String)
    (db : DB) : Except String (Option DB) :=
  match _checkScopeName oldName with
  | .error e => .error e
  | .ok _ =>
  match _checkScopeName newName with
  | .error e => .error e
  | .ok _ =>
  if oldName = newName then .ok (some db)
  else .ok (renameScopeLoop oldName newName fuel db)

/-- Count of assignment documents whose `role._id` equals the old name. -/
def countRoleIdMatches (db : DB) (oldName : String) : Nat :=
  (db.roleAssignment.filter (fun a => a.role._id == oldName)).length

/-- First rename loop of `renameRoleAsync`: `$set` of the scalar
`role._id` field across all matching documents. -/
def updateAssignmentRoleIdAll (db : DB) (oldName newName : String) :
    DB × Nat :=
  ({ db with
      roleAssignment := db.roleAssignment.map (fun a =>
        if a.role._id == oldName then { a with role := ⟨newName⟩ } else a) },
   countRoleIdMatches db oldName)

def renameRoleIdLoop (oldName newName : String) : Nat → DB → Option DB
  | 0, _ => none
  | fuel + 1, db =>
    match updateAssignmentRoleIdAll db oldName newName with
    | (db1, count) =>
      if count > 0 then renameRoleIdLoop oldName newName fuel db1
      else some db1

/-- Positional (`$`) replacement: only the first array element matching
the filter is rewritten per document per call. -/
def replaceFirst (oldName newName : String) : List DbRef → List DbRef
  | [] => []
  | r :: rs =>
    if r._id == oldName then ⟨newName⟩ :: rs
    else r :: replaceFirst oldName newName rs

def inhMatches (a : Assignment) (oldName : String) : Bool :=
  (a.inheritedRoles.getD []).any (fun r => r._id == oldName)

def countInhMatches (db : DB) (oldName : String) : Nat :=
  (db.roleAssignment.filter (fun a => inhMatches a oldName)).length

/-- Second rename loop of `renameRoleAsync`:
`{$set: {'inheritedRoles.$._id': newName}}` — one array element per
matching document per call. -/
def updateInhPositionalAll (db : DB) (oldName newName : String) : DB × Nat :=
  ({ db with
      roleAssignment := db.roleAssignment.map (fun a =>
        if inhMatches a oldName then
          { a with
              inheritedRoles :=
                some (replaceFirst oldName newName (a.inheritedRoles.getD [])) }
        else a) },
   countInhMatches db oldName)

def renameInhLoop (oldName newName : String) : Nat → DB → Option DB
  | 0, _ => none
  | fuel + 1, db =>
    match updateInhPositionalAll db oldName newName with
    | (db1, count) =>
      if count > 0 then renameInhLoop oldName newName fuel db1
      else some db1

def childMatches (r : Role) (oldName : String) : Bool :=
  r.children.any (fun c => c._id == oldName)

def countChildMatches (db : DB) (oldName : String) : Nat :=
  (db.roles.filter (fun r => childMatches r oldName)).length

/-- Third rename loop of `renameRoleAsync`:
`{$set: {'children.$._id': newName}}` on the roles collection. -/
def updateChildPositionalAll (db : DB) (oldName newName : String) :
    DB × Nat :=
  ({ db with
      roles := db.roles.map (fun r =>
        if childMatches r oldName then
          { r with children := replaceFirst oldName newName r.children }
        else r) },
   countChildMatches db oldName)

def renameChildLoop (oldName newName : String) : Nat → DB → Option DB
  | 0, _ => none
  | fuel + 1, db =>
    match updateChildPositionalAll db oldName newName with
    | (db1, count) =>
      if count > 0 then renameChildLoop oldName newName fuel db1
      else some db1

/-- `renameRoleAsync(oldName, newName)`: validates both names, returns at
once when equal, requires the old role, re-inserts its document under the
new name, then runs the three converge-until-stable rewrite loops and
finally removes the old role document.  `ok none` marks fuel exhaustion of
a loop. -/
def renameRoleAsync (fuel : Nat) (oldName newName : String) (db : DB) :
    Except String (Option DB) :=
  match _checkRoleName oldName with
  | .error e => .error e
  | .ok _ =>
  match _checkRoleName newName with
  | .error e => .error e
  | .ok _ =>
  if oldName = newName then .ok (some db)
  else
    match findOneRole db oldName with
    | none => .error ("Role " ++ oldName ++ " does not exist.")
    | some role =>
      match insertRole db { role with _id := newName } with
      | .error e => .error e
      | .ok (_, db1) =>
        match renameRoleIdLoop oldName newName fuel db1 with
        | none => .ok none
        | some db2 =>
          match renameInhLoop oldName newName fuel db2 with
          | none => .ok none
          | some db3 =>
            match renameChildLoop oldName newName fuel db3 with
            | none => .ok none
            | some db4 =>
              .ok (some { db4 with
                roles := db4.roles.filter (fun r => !(r._id == oldName)) })

/-- `Array.prototype.pop`: removes and returns the last element. -/
def jsPop : List String → Option (String × List String)
  | [] => none
  | [x] => some (x, [])
  | x :: y :: rest =>
    match jsPop (y :: rest) with
    | some (z, zs) => some (z, x :: zs)
    | none => none

/-- The `while (rolesToCheck.length !== 0)` search of `isParentOfAsync`:
pop the last name, succeed if it is the target, skip it if it has no role
document (the dangling-edge tolerance), otherwise push its child names. -/
def dfsLoop (db : DB) (childRoleName : String) :
    Nat → List String → Option Bool
  | 0, rolesToCheck =>
    match jsPop rolesToCheck with
    | none => some false
    | some _ => none
  | fuel + 1, rolesToCheck =>
    match jsPop rolesToCheck with
    | none => some false
    | some (roleName, rest) =>
      if roleName = childRoleName then some true
      else
        match findOneRole db roleName with
        | none => dfsLoop db childRoleName fuel rest
        | some role =>
          dfsLoop db childRoleName fuel
            (rest ++ role.children.map DbRef._id)

/-- `isParentOfAsync(parentRoleName, childRoleName)`: equal names
short-circuit to `true` before any other check; a `null` argument yields
`false`; then both names are validated and the iterative search runs.
`none` marks fuel exhaustion of the search loop. -/
def isParentOfAsync (db : DB) (fuel : Nat)
    (parentRoleName childRoleName : Option String) :
    Option (Except String Bool) :=
  if parentRoleName = childRoleName then some (.ok true)
  else
    match parentRoleName, childRoleName with
    | none, _ => some (.ok false)
    | _, none => some (.ok false)
    | some p, some c =>
      match _checkRoleName p with
      | .error e => some (.error e)
      | .ok _ =>
        match _checkRoleName c with
        | .error e => some (.error e)
        | .ok _ => (dfsLoop db c fuel [p]).map Except.ok

/-- Reachability along `children` edges as stored in the role store: the
relation the search of `isParentOfAsync` decides.  A name without a role
document can still be a target but contributes no further edges. -/
inductive Reach (db : DB) : String → String → Prop
  | refl (a : String) : Reach db a a
  | step {a c d : String} (role : Role) (h : findOneRole db a = some role)
      (hc : c ∈ role.children.map DbRef._id) (hr : Reach db c d) :
      Reach db a d

/-- Store with roles `admin` (child `editor`) and `editor`, no assignments. -/
def dbC1 : DB :=
  ⟨[⟨"admin", [⟨"editor"⟩]⟩, ⟨"editor", []⟩], [], 0⟩

/-- C1: refuted by evaluation — with role `admin` having child `editor`,
the assignment created by `addUsersToRoles(u1, admin)` stores
`inheritedRoles = [admin]` only, while `{role} ∪ descendantsOf(role)`
computed from the live `children` relation is `[admin, editor]`: the
closure helper `_getInheritedRoleNamesAsync` always returns the empty
list, so the denormalized field misses every descendant. -/
theorem c1_inheritedRoles_misses_descendants :
    addUsersToRolesAsync dbC1 ["u1"] ["admin"] none false =
      .ok ⟨[⟨"admin", [⟨"editor"⟩]⟩, ⟨"editor", []⟩],
           [⟨0, ⟨"u1"⟩, ⟨"admin"⟩, none, some [⟨"admin"⟩]⟩], 1⟩ ∧
    spec_inheritedClosureOf dbC1 "admin" = ["admin", "editor"] ∧
    _getInheritedRoleNamesAsync dbC1 ⟨"admin", [⟨"editor"⟩]⟩ = [] :=
  ⟨rfl, rfl, rfl⟩

/-- Store with unrelated roles `admin` and `editor`, no assignments. -/
def dbC2 : DB := ⟨[⟨"admin", []⟩, ⟨"editor", []⟩], [], 0⟩

/-- C2: refuted by evaluation — after `addRolesToParent(editor, admin)`
succeeds, the call `_addRoleToParentAsync(admin, editor)` has
`editor ∈ inheritedClosureOf(admin)` on the pre-call graph, so per the
claim it must fail with a cycle error; instead it returns successfully and
commits the edge, leaving the two-edge cycle `admin ↔ editor` in the role
store (the cycle check consults `_getInheritedRoleNamesAsync`, which is
always empty). -/
theorem c2_cycle_committed :
    (addRolesToParentAsync dbC2 ["editor"] "admin").bind
        (fun db1 => _addRoleToParentAsync db1 "admin" "editor") =
      .ok ⟨[⟨"admin", [⟨"editor"⟩]⟩, ⟨"editor", [⟨"admin"⟩]⟩], [], 0⟩ ∧
    spec_inheritedClosureOf ⟨[⟨"admin", [⟨"editor"⟩]⟩, ⟨"editor", []⟩], [], 0⟩
        "admin" = ["admin", "editor"] :=
  ⟨rfl, rfl⟩

/-- Store already containing role `admin`. -/
def dbC3 : DB := ⟨[⟨"admin", []⟩], [], 0⟩

/-- C3: refuted by evaluation — `createRole` on an existing role with
`unlessExists` false returns `null` without raising any error: the
existing-role branch issues the no-op `$setOnInsert` update and returns at
once, never reaching the `already exists` throw. -/
theorem c3_createRole_existing_silently_returns_null :
    createRoleAsync dbC3 "admin" false = .ok (none, dbC3) := rfl

theorem asyncSome_eq_true {p : String → Bool} :
    ∀ {l : List String}, asyncSome l p = true ↔ ∃ x ∈ l, p x = true := by
  intro l
  induction l with
  | nil => simp [asyncSome]
  | cons x xs ih => by_cases h : p x <;> simp [asyncSome, h, ih]

theorem filterMap_id_map_some (l : List String) :
    (l.map some).filterMap (fun r => r) = l := by
  induction l with
  | nil => rfl
  | cons x xs ih => simp [ih]

/-- C10: `userIsInRole` answers `false`, raising no error, on every
degenerate input: a user argument that does not resolve to a string id
(null/undefined, a non-string primitive, an object without a string
`_id`), an empty roles array, or a roles array containing only
null/undefined entries (filtered out before the store is consulted; in
these last two cases the scope option is not even validated). -/
theorem c10_userIsInRole_degenerate_false :
    (∀ (db : DB) (user : UserArg) (roles : List (Option String))
        (scope : Option String) (anyScope : Bool), scopeNameValid scope →
      (∀ s, resolveId user ≠ some (.str s)) →
      userIsInRoleAsync db user roles scope anyScope = .ok false) ∧
    (∀ (db : DB) (user : UserArg) (scope : Option String) (anyScope : Bool),
      userIsInRoleAsync db user [] scope anyScope = .ok false) ∧
    (∀ (db : DB) (user : UserArg) (roles : List (Option String))
        (scope : Option String) (anyScope : Bool), (∀ x ∈ roles, x = none) →
      userIsInRoleAsync db user roles scope anyScope = .ok false) := by
  refine ⟨?_, ?_, ?_⟩
  · intro db user roles scope anyScope hS hid
    unfold userIsInRoleAsync
    simp only [_checkScopeName_ok hS]
    cases hv : resolveId user with
    | none => simp [hv, jsFalsyId]
    | some v =>
      cases v with
      | str s => exact absurd hv (hid s)
      | num n => simp [hv, jsFalsyId]
  · intro db user scope anyScope
    rfl
  · intro db user roles scope anyScope hall
    unfold userIsInRoleAsync
    have h0 : roles.filterMap (fun r => r) = [] := by
      rw [List.filterMap_eq_nil_iff]
      intro x hx
      rw [hall x hx]
    rw [h0]
    rfl

/-- Closed instance of the degenerate-input behavior at concrete values. -/
theorem c10_userIsInRole_degenerate_false_witness :
    userIsInRoleAsync ⟨[], [], 0⟩ .null [some "admin"] none false
        = .ok false ∧
    userIsInRoleAsync ⟨[], [], 0⟩ (.prim (.num 7)) [some "admin"] (some "g")
        false = .ok false ∧
    userIsInRoleAsync ⟨[], [], 0⟩ (.obj none) [some "admin"] none true
        = .ok false ∧
    userIsInRoleAsync ⟨[], [], 0⟩ (.prim (.str "u1")) [] (some "g") false
        = .ok false ∧
    userIsInRoleAsync ⟨[], [], 0⟩ (.prim (.str "u1")) [none, none] (some "g")
        false = .ok false :=
  ⟨c10_userIsInRole_degenerate_false.1 _ _ _ _ _ trivial
      (fun s => by simp [resolveId]),
   c10_userIsInRole_degenerate_false.1 _ _ _ _ _ (by decide)
      (fun s => by simp [resolveId]),
   c10_userIsInRole_degenerate_false.1 _ _ _ _ _ trivial
      (fun s => by simp [resolveId]),
   c10_userIsInRole_degenerate_false.2.1 _ _ _ _,
   c10_userIsInRole_degenerate_false.2.2 _ _ _ _ _ (by decide)⟩

/-- C4: for a principal (a non-empty string id), a non-empty list of role
names and any options with a valid scope, `userIsInRole` answers `true`
exactly when some requested role name occurs in the `inheritedRoles` of
some assignment of that principal whose scope is the requested one or the
global (`null`) scope — the scope condition being dropped entirely under
`anyScope`.  The evaluation itself runs `asyncSome`, which stops at the
first requested role with a match. -/
theorem c4_userIsInRole_iff (db : DB) (P : String) (hP : P ≠ "")
    (roles : List String) (hne : roles ≠ []) (scope : Option String)
    (anyScope : Bool) (hS : scopeNameValid scope) :
    userIsInRoleAsync db (.prim (.str P)) (roles.map some) scope anyScope
        = .ok true ↔
      ∃ r ∈ roles, ∃ a ∈ db.roleAssignment, a.user._id = P ∧
        (anyScope = true ∨ a.scope = scope ∨ a.scope = none) ∧
        ∃ e ∈ a.inheritedRoles.getD [], e._id = r := by
  have hni : roles.isEmpty = false := by
    cases roles with
    | nil => exact absurd rfl hne
    | cons a l => rfl
  have hPb : (P == "") = false := by
    simp [hP]
  simp only [userIsInRoleAsync, filterMap_id_map_some]
  simp [hni, _checkScopeName_ok hS, resolveId, jsFalsyId, hPb,
    asyncSome_eq_true, List.any_eq_true, and_assoc]

/-- Store with role `r` and a single scoped assignment of `r` to `u`. -/
def dbC4 : DB := ⟨[⟨"r", []⟩], [⟨0, ⟨"u"⟩, ⟨"r"⟩, some "g", some [⟨"r"⟩]⟩], 1⟩

/-- Closed instance of the membership characterization. -/
theorem c4_userIsInRole_iff_witness :
    userIsInRoleAsync dbC4 (.prim (.str "u")) [some "r"] (some "g") false
      = .ok true :=
  (c4_userIsInRole_iff dbC4 "u" (by decide) ["r"] (by decide) (some "g")
      false (by decide)).mpr
    ⟨"r", by decide, ⟨0, ⟨"u"⟩, ⟨"r"⟩, some "g", some [⟨"r"⟩]⟩, by decide,
      rfl, Or.inr (Or.inl rfl), ⟨"r"⟩, by decide, rfl⟩

/-- Store with role `r` granted to `u` in the global (`null`) scope. -/
def dbC5 : DB := ⟨[⟨"r", []⟩], [⟨0, ⟨"u"⟩, ⟨"r"⟩, none, some [⟨"r"⟩]⟩], 1⟩

/-- C5 counterexample: `u` holds `r` in the global scope only.
`removeUsersFromRoles(u, r, {scope: s})` matches nothing and leaves the
store unchanged, and `userIsInRole(u, r, {scope: s})` still answers
`true` afterwards, because the scope-restricted membership query always
includes the global scope — contradicting the claim that it must be
`false` after the removal. -/
theorem c5_revocation_incomplete :
    removeUsersFromRolesAsync dbC5 ["u"] ["r"] (some "s") false = .ok dbC5 ∧
    userIsInRoleAsync dbC5 (.prim (.str "u")) [some "r"] (some "s") false
      = .ok true ∧
    ¬(userIsInRoleAsync dbC5 (.prim (.str "u")) [some "r"] (some "s") false
      = .ok false) := by
  refine ⟨rfl, rfl, ?_⟩
  intro h
  rw [show userIsInRoleAsync dbC5 (.prim (.str "u")) [some "r"] (some "s")
      false = .ok true from rfl] at h
  simp at h

/-- C5 amended: after `removeUsersFromRoles(P, R, {scope: S})` no
assignment record with user `P`, role `R` and scope `S` remains, and —
provided every assignment of `P` whose `inheritedRoles` contains `R` was
such a direct (P, R, S) record (in particular `P` holds no global-scope
assignment and no other-role assignment inheriting `R`) —
`userIsInRole(P, R, {scope: S})` answers `false`. -/
theorem c5_revocation_amended (db : DB) (P R : String) (S : Option String)
    (hP : P ≠ "") (hR : roleNameValid R) (hS : scopeNameValid S)
    (hOnly : ∀ a ∈ db.roleAssignment, a.user._id = P →
      (∃ e ∈ a.inheritedRoles.getD [], e._id = R) →
      a.role._id = R ∧ a.scope = S) :
    ∃ db', removeUsersFromRolesAsync db [P] [R] S false = .ok db' ∧
      (∀ a ∈ db'.roleAssignment,
        ¬(a.user._id = P ∧ a.role._id = R ∧ a.scope = S)) ∧
      userIsInRoleAsync db' (.prim (.str P)) [some R] S false = .ok false := by
  refine ⟨{ db with roleAssignment := db.roleAssignment.filter (fun a =>
      !(a.user._id == P && a.role._id == R && (false || a.scope == S))) },
    ?_, ?_, ?_⟩
  · unfold removeUsersFromRolesAsync removeUsersLoop
    rw [_checkScopeName_ok hS]
    simp only [List.foldlM_cons, List.foldlM_nil]
    unfold _removeUserFromRoleAsync
    rw [_checkRoleName_ok hR, _checkScopeName_ok hS]
    simp [hP]
    rfl
  · intro a ha hbad
    have hmem := (List.mem_filter.mp ha).2
    simp only [Bool.not_eq_true', Bool.and_eq_false_iff, Bool.or_eq_false_iff,
      beq_eq_false_iff_ne] at hmem
    rcases hmem with ((h1 | h2) | ⟨_, h3⟩)
    · exact h1 hbad.1
    · exact h2 hbad.2.1
    · exact h3 hbad.2.2
  · have hPb : (P == "") = false := by simp [hP]
    have hnone : ∀ a ∈ db.roleAssignment.filter (fun a =>
        !(a.user._id == P && a.role._id == R && (false || a.scope == S))),
        ¬(a.user._id == P &&
          (false || (a.scope == S || a.scope == none)) &&
          (a.inheritedRoles.getD []).any (fun r => r._id == R)) = true := by
      intro a ha hbad
      have hin := (List.mem_filter.mp ha).1
      have hkept := (List.mem_filter.mp ha).2
      simp only [Bool.and_eq_true, Bool.or_eq_true, beq_iff_eq,
        List.any_eq_true] at hbad
      obtain ⟨⟨hu, _⟩, e, he, heq⟩ := hbad
      obtain ⟨hrole, hscope⟩ :=
        hOnly a hin hu ⟨e, he, by simpa using heq⟩
      simp only [Bool.not_eq_true', Bool.and_eq_false_iff,
        Bool.or_eq_false_iff, beq_eq_false_iff_ne] at hkept
      rcases hkept with ((h1 | h2) | ⟨_, h3⟩)
      · exact h1 hu
      · exact h2 hrole
      · exact h3 hscope
    have : (db.roleAssignment.filter (fun a =>
        !(a.user._id == P && a.role._id == R && (false || a.scope == S)))).any
        (fun a => a.user._id == P &&
          (false || (a.scope == S || a.scope == none)) &&
          (a.inheritedRoles.getD []).any (fun r => r._id == R)) = false := by
      rw [List.any_eq_false]
      exact hnone
    simp only [userIsInRoleAsync]
    simp only [_checkScopeName_ok hS]
    simp only [resolveId, jsFalsyId, hPb, List.filterMap,
      List.isEmpty_cons]
    simp only [Bool.false_eq_true, if_false, asyncSome]
    simp only [this, Bool.false_eq_true, if_false]

/-- Store with role `r` granted to `u` in scope `s` only. -/
def dbC5w : DB := ⟨[⟨"r", []⟩], [⟨0, ⟨"u"⟩, ⟨"r"⟩, some "s", some [⟨"r"⟩]⟩], 1⟩

/-- Closed instance of the amended revocation-completeness property. -/
theorem c5_revocation_amended_witness :
    ∃ db', removeUsersFromRolesAsync dbC5w ["u"] ["r"] (some "s") false
        = .ok db' ∧
      (∀ a ∈ db'.roleAssignment,
        ¬(a.user._id = "u" ∧ a.role._id = "r" ∧ a.scope = some "s")) ∧
      userIsInRoleAsync db' (.prim (.str "u")) [some "r"] (some "s") false
        = .ok false :=
  c5_revocation_amended dbC5w "u" "r" (some "s") (by decide) (by decide)
    (by decide) (by decide)

theorem map_id_of_mem {α : Type} {f : α → α} :
    ∀ {l : List α}, (∀ x ∈ l, f x = x) → l.map f = l := by
  intro l h
  induction l with
  | nil => rfl
  | cons x xs ih =>
    rw [List.map_cons, h x (List.mem_cons_self x xs),
      ih (fun y hy => h y (List.mem_cons_of_mem x hy))]

theorem find?_append_none {α : Type} {p : α → Bool} :
    ∀ {l1 l2 : List α}, l1.find? p = none →
      (l1 ++ l2).find? p = l2.find? p := by
  intro l1 l2 h
  induction l1 with
  | nil => rfl
  | cons x xs ih =>
    cases hp : p x with
    | true =>
      rw [List.find?_cons_of_pos _ hp] at h
      cases h
    | false =>
      rw [List.find?_cons_of_neg _ (by simp [hp])] at h
      rw [List.cons_append, List.find?_cons_of_neg _ (by simp [hp])]
      exact ih h

/-- Under id uniqueness, overwriting the found assignment with the very
fields the lookup filtered on changes nothing. -/
theorem updateAssignmentSet_self {db : DB} (hwf : db.wf)
    {P R : String} {S : Option String} {e : Assignment}
    (he : findOneAssignment db P R S = some e) :
    updateAssignmentSet db e._id P R S = db := by
  have hmem : e ∈ db.roleAssignment := List.mem_of_find?_eq_some he
  have hpred := List.find?_some he
  simp only [Bool.and_eq_true, beq_iff_eq] at hpred
  obtain ⟨⟨hu, hr⟩, hs⟩ := hpred
  have hinj := List.inj_on_of_nodup_map hwf.2
  unfold updateAssignmentSet
  have hmap : db.roleAssignment.map (fun a =>
      if a._id == e._id then
        { a with user := ⟨P⟩, role := ⟨R⟩, scope := S }
      else a) = db.roleAssignment := by
    apply map_id_of_mem
    intro a ha
    by_cases hid : a._id = e._id
    · have hae : a = e := hinj ha hmem hid
      subst hae
      rw [if_pos (by simp)]
      cases a with
      | mk i u r s inh =>
        cases u
        cases r
        simp only at hu hr hs
        simp [hu, hr, hs]
    · simp [hid]
  rw [hmap]

/-- Inserting a fresh assignment and then setting its `inheritedRoles` by
`_id` yields exactly the append of the completed record (older documents
all have smaller ids, so the by-id update touches only the new one). -/
theorem insert_set_characterization (db : DB) (hwf : db.wf)
    (P R : String) (S : Option String) (names : List String) :
    setInheritedRoles (insertAssignment db P R S).1
        (insertAssignment db P R S).2 names
      = ⟨db.roles,
         db.roleAssignment ++
           [⟨db.nextId, ⟨P⟩, ⟨R⟩, S, some (names.map (fun r => ⟨r⟩))⟩],
         db.nextId + 1⟩ := by
  unfold setInheritedRoles insertAssignment
  have holds : db.roleAssignment.map (fun a =>
      if a._id == db.nextId then
        { a with inheritedRoles := some (names.map (fun r => ⟨r⟩)) }
      else a) = db.roleAssignment := by
    apply map_id_of_mem
    intro a ha
    have hne : a._id ≠ db.nextId := Nat.ne_of_lt (hwf.1 a ha)
    simp [hne]
  simp only [List.map_append, List.map_cons, List.map_nil, holds]
  simp

/-- Appending a record carrying the fresh counter id preserves
well-formedness. -/
theorem wf_append_fresh (db : DB) (hwf : db.wf) (rec : Assignment)
    (hrec : rec._id = db.nextId) :
    DB.wf ⟨db.roles, db.roleAssignment ++ [rec], db.nextId + 1⟩ := by
  constructor
  · intro a ha
    rcases List.mem_append.mp ha with h | h
    · exact Nat.lt_succ_of_lt (hwf.1 a h)
    · rw [List.mem_singleton] at h
      subst h
      rw [hrec]
      exact Nat.lt_succ_self _
  · rw [List.map_append]
    refine List.Nodup.append hwf.2 (List.nodup_singleton _) ?_
    intro x hx hy
    rw [List.map_singleton, List.mem_singleton] at hy
    subst hy
    obtain ⟨a, ha, hax⟩ := List.mem_map.mp hx
    exact absurd (hax.trans hrec) (Nat.ne_of_lt (hwf.1 a ha))

/-- C7: granting the same (principal, role, scope) twice in sequence
leaves exactly the state of a single grant — the second call finds the
assignment written by the first and overwrites it in place with the same
field values instead of inserting a second record, so every observable
membership fact (every `userIsInRole` answer) coincides. -/
theorem c7_addUserToRole_idempotent (db : DB) (hwf : db.wf)
    (P R : String) (S : Option String) (ifE : Bool) :
    (_addUserToRoleAsync db P R S ifE).bind
        (fun db1 => _addUserToRoleAsync db1 P R S ifE)
      = _addUserToRoleAsync db P R S ifE := by
  cases hcr : _checkRoleName R with
  | error e =>
    unfold _addUserToRoleAsync
    rw [hcr]
    rfl
  | ok u0 =>
  cases u0
  cases hcs : _checkScopeName S with
  | error e =>
    unfold _addUserToRoleAsync
    rw [hcr, hcs]
    rfl
  | ok u1 =>
  cases u1
  by_cases hP : P = ""
  · have h1 : _addUserToRoleAsync db P R S ifE = .ok db := by
      unfold _addUserToRoleAsync
      rw [hcr, hcs, if_pos hP]
    rw [h1]
    show _addUserToRoleAsync db P R S ifE = .ok db
    exact h1
  cases hrole : findOneRole db R with
  | none =>
    cases hifE : ifE with
    | false =>
      have h1 : _addUserToRoleAsync db P R S false = .error
          ("Role " ++ R ++ " does not exist.") := by
        unfold _addUserToRoleAsync
        rw [hcr, hcs, if_neg hP, hrole]
        rfl
      rw [h1]
      rfl
    | true =>
      have h1 : _addUserToRoleAsync db P R S true = .ok db := by
        unfold _addUserToRoleAsync
        rw [hcr, hcs, if_neg hP, hrole]
        rfl
      rw [h1]
      show _addUserToRoleAsync db P R S true = .ok db
      exact h1
  | some role =>
  cases hfa : findOneAssignment db P R S with
  | some e0 =>
    have h1 : _addUserToRoleAsync db P R S ifE = .ok db := by
      unfold _addUserToRoleAsync
      rw [hcr, hcs, if_neg hP, hrole, hfa]
      exact congrArg Except.ok (updateAssignmentSet_self hwf hfa)
    rw [h1]
    show _addUserToRoleAsync db P R S ifE = .ok db
    exact h1
  | none =>
    have h1 : _addUserToRoleAsync db P R S ifE =
        .ok ⟨db.roles,
          db.roleAssignment ++ [⟨db.nextId, ⟨P⟩, ⟨R⟩, S, some [⟨R⟩]⟩],
          db.nextId + 1⟩ := by
      unfold _addUserToRoleAsync
      rw [hcr, hcs, if_neg hP, hrole, hfa]
      exact congrArg Except.ok (insert_set_characterization db hwf P R S [R])
    have hwfI : DB.wf ⟨db.roles,
        db.roleAssignment ++ [⟨db.nextId, ⟨P⟩, ⟨R⟩, S, some [⟨R⟩]⟩],
        db.nextId + 1⟩ :=
      wf_append_fresh db hwf _ rfl
    have hroleI : findOneRole ⟨db.roles,
        db.roleAssignment ++ [⟨db.nextId, ⟨P⟩, ⟨R⟩, S, some [⟨R⟩]⟩],
        db.nextId + 1⟩ R = some role := hrole
    have hfaI : findOneAssignment ⟨db.roles,
        db.roleAssignment ++ [⟨db.nextId, ⟨P⟩, ⟨R⟩, S, some [⟨R⟩]⟩],
        db.nextId + 1⟩ P R S
        = some ⟨db.nextId, ⟨P⟩, ⟨R⟩, S, some [⟨R⟩]⟩ := by
      have hstep : (db.roleAssignment ++
          [(⟨db.nextId, ⟨P⟩, ⟨R⟩, S, some [⟨R⟩]⟩ : Assignment)]).find?
            (fun a => a.user._id == P && a.role._id == R && a.scope == S)
          = some ⟨db.nextId, ⟨P⟩, ⟨R⟩, S, some [⟨R⟩]⟩ := by
        rw [find?_append_none hfa]
        simp [List.find?]
      exact hstep
    rw [h1]
    show _addUserToRoleAsync ⟨db.roles,
        db.roleAssignment ++ [⟨db.nextId, ⟨P⟩, ⟨R⟩, S, some [⟨R⟩]⟩],
        db.nextId + 1⟩ P R S ifE = _
    unfold _addUserToRoleAsync
    rw [hcr, hcs, if_neg hP, hroleI, hfaI]
    exact congrArg Except.ok (updateAssignmentSet_self hwfI hfaI)

/-- Store with role `r`, empty assignment store, counter 0. -/
def dbC7 : DB := ⟨[⟨"r", []⟩], [], 0⟩

/-- Closed instance of the idempotent-grant property. -/
theorem c7_addUserToRole_idempotent_witness :
    (_addUserToRoleAsync dbC7 "u" "r" (some "g") false).bind
        (fun db1 => _addUserToRoleAsync db1 "u" "r" (some "g") false)
      = _addUserToRoleAsync dbC7 "u" "r" (some "g") false :=
  c7_addUserToRole_idempotent dbC7 (by decide) "u" "r" (some "g") false

/-- One spec-modelled grant extends the exact (principal, scope) role set
by the granted role and touches nothing else of it. -/
theorem spec_addUserToRole_step (db0 : DB) (P : String) (hP : P ≠ "")
    (S : Option String) (hS : scopeNameValid S) (ifE : Bool)
    (anyScope : Bool)
    (r : String) (hrv : roleNameValid r) (hre : (findOneRole db0 r).isSome)
    (dbk : DB) (hroles : dbk.roles = db0.roles) (hwf : dbk.wf)
    (pre : List String)
    (hinv : ∀ n : String, (∃ a ∈ dbk.roleAssignment,
      a.user._id = P ∧ a.scope = S ∧ a.role._id = n) ↔ n ∈ pre)
    (hpure : anyScope = true → ∀ a ∈ dbk.roleAssignment,
      a.user._id = P → a.scope = S) :
    ∃ dbk', spec_addUserToRole dbk P r S ifE = .ok dbk' ∧
      dbk'.roles = db0.roles ∧ dbk'.wf ∧
      (∀ n : String, (∃ a ∈ dbk'.roleAssignment,
        a.user._id = P ∧ a.scope = S ∧ a.role._id = n) ↔ n ∈ pre ++ [r]) ∧
      (anyScope = true → ∀ a ∈ dbk'.roleAssignment,
        a.user._id = P → a.scope = S) := by
  have hrole : ∃ role, findOneRole dbk r = some role := by
    have heq : findOneRole dbk r = findOneRole db0 r := by
      unfold findOneRole
      rw [hroles]
    rw [heq]
    exact Option.isSome_iff_exists.mp hre
  obtain ⟨role, hrole⟩ := hrole
  cases hfa : findOneAssignment dbk P r S with
  | some e0 =>
    have hid : updateAssignmentSet dbk e0._id P r S = dbk :=
      updateAssignmentSet_self hwf hfa
    have hcall : spec_addUserToRole dbk P r S ifE = .ok dbk := by
      unfold spec_addUserToRole
      rw [_checkRoleName_ok hrv, _checkScopeName_ok hS, if_neg hP, hrole,
        hfa]
      exact congrArg Except.ok hid
    have hrpre : r ∈ pre := by
      have hpred := List.find?_some hfa
      have hmem := List.mem_of_find?_eq_some hfa
      simp only [Bool.and_eq_true, beq_iff_eq] at hpred
      exact (hinv r).mp ⟨e0, hmem, hpred.1.1, hpred.2, hpred.1.2⟩
    refine ⟨dbk, hcall, hroles, hwf, ?_, hpure⟩
    intro n
    rw [hinv n, List.mem_append, List.mem_singleton]
    constructor
    · exact Or.inl
    · rintro (h | h)
      · exact h
      · rw [h]
        exact hrpre
  | none =>
    have hcall : spec_addUserToRole dbk P r S ifE =
        .ok ⟨dbk.roles, dbk.roleAssignment ++
          [⟨dbk.nextId, ⟨P⟩, ⟨r⟩, S,
            some ((spec_inheritedClosureOf dbk r).map (fun x => ⟨x⟩))⟩],
          dbk.nextId + 1⟩ := by
      unfold spec_addUserToRole
      rw [_checkRoleName_ok hrv, _checkScopeName_ok hS, if_neg hP, hrole,
        hfa]
      exact congrArg Except.ok
        (insert_set_characterization dbk hwf P r S
          (spec_inheritedClosureOf dbk r))
    refine ⟨_, hcall, hroles, wf_append_fresh dbk hwf _ rfl, ?_, ?_⟩
    · intro n
      constructor
      · rintro ⟨a, ha, hu, hs2, hr2⟩
        rcases List.mem_append.mp ha with hmem | hmem
        · exact List.mem_append.mpr
            (Or.inl ((hinv n).mp ⟨a, hmem, hu, hs2, hr2⟩))
        · rw [List.mem_singleton] at hmem
          subst hmem
          rw [List.mem_append, List.mem_singleton]
          exact Or.inr hr2.symm
      · intro hn
        rcases List.mem_append.mp hn with hn | hn
        · obtain ⟨a, ha, hu, hs2, hr2⟩ := (hinv n).mpr hn
          exact ⟨a, List.mem_append.mpr (Or.inl ha), hu, hs2, hr2⟩
        · rw [List.mem_singleton] at hn
          subst hn
          exact ⟨_, List.mem_append.mpr (Or.inr (List.mem_singleton.mpr rfl)),
            rfl, rfl, rfl⟩
    · intro hany a ha hu
      rcases List.mem_append.mp ha with hmem | hmem
      · exact hpure hany a hmem hu
      · rw [List.mem_singleton] at hmem
        subst hmem
        rfl

/-- Folding spec-modelled grants over a role list realizes exactly the
accumulated role set for the (principal, scope) pair. -/
theorem spec_addUserToRole_fold (db0 : DB) (P : String) (hP : P ≠ "")
    (S : Option String) (hS : scopeNameValid S) (ifE anyScope : Bool) :
    ∀ (rs : List String) (dbk : DB) (pre : List String),
      (∀ x ∈ rs, roleNameValid x ∧ (findOneRole db0 x).isSome) →
      dbk.roles = db0.roles → dbk.wf →
      (∀ n : String, (∃ a ∈ dbk.roleAssignment,
        a.user._id = P ∧ a.scope = S ∧ a.role._id = n) ↔ n ∈ pre) →
      (anyScope = true → ∀ a ∈ dbk.roleAssignment,
        a.user._id = P → a.scope = S) →
      ∃ db', rs.foldlM (fun acc role =>
          spec_addUserToRole acc P role S ifE) dbk = .ok db' ∧
        db'.roles = db0.roles ∧ db'.wf ∧
        (∀ n : String, (∃ a ∈ db'.roleAssignment,
          a.user._id = P ∧ a.scope = S ∧ a.role._id = n) ↔ n ∈ pre ++ rs) ∧
        (anyScope = true → ∀ a ∈ db'.roleAssignment,
          a.user._id = P → a.scope = S) := by
  intro rs
  induction rs with
  | nil =>
    intro dbk pre _ hroles hwf hinv hpure
    exact ⟨dbk, rfl, hroles, hwf, by simpa using hinv, hpure⟩
  | cons x xs ih =>
    intro dbk pre hall hroles hwf hinv hpure
    obtain ⟨dbk1, hcall, hroles1, hwf1, hinv1, hpure1⟩ :=
      spec_addUserToRole_step db0 P hP S hS ifE anyScope x
        (hall x (by simp)).1 (hall x (by simp)).2 dbk hroles hwf pre hinv
        hpure
    obtain ⟨db', hfold, h2, h3, h4, h5⟩ :=
      ih dbk1 (pre ++ [x]) (fun y hy => hall y (by simp [hy])) hroles1 hwf1
        hinv1 hpure1
    refine ⟨db', ?_, h2, h3, ?_, h5⟩
    · rw [List.foldlM_cons, hcall]
      exact hfold
    · intro n
      rw [h4 n]
      simp [List.mem_append, List.mem_cons, or_assoc]

/-- C6: per principal, `setUserRoles` first removes every existing
assignment of that principal at the requested scope (every assignment of
the principal whatsoever under `anyScope`), then performs one
add-user-to-role per requested role, so the resulting set of roles
assigned to the (principal, scope) pair is exactly the requested list —
full replace, not a diff. -/
theorem c6_setUserRoles_full_replace (db : DB) (hwf : db.wf) (P : String)
    (hP : P ≠ "") (roles : List String) (S : Option String)
    (hS : scopeNameValid S) (anyScope ifE : Bool)
    (hroles : ∀ r ∈ roles, roleNameValid r ∧ (findOneRole db r).isSome) :
    ∃ db', setUserRolesAsync db [P] roles S anyScope ifE = .ok db' ∧
      (∀ r : String, (∃ a ∈ db'.roleAssignment,
        a.user._id = P ∧ a.scope = S ∧ a.role._id = r) ↔ r ∈ roles) ∧
      (anyScope = true → ∀ a ∈ db'.roleAssignment, a.user._id = P →
        a.scope = S) := by
  have hwfc : DB.wf ⟨db.roles, db.roleAssignment.filter
      (fun a => !(a.user._id == P && (anyScope || a.scope == S))),
      db.nextId⟩ := by
    constructor
    · intro a ha
      exact hwf.1 a (List.mem_of_mem_filter ha)
    · exact List.Nodup.sublist
        (List.Sublist.map _ (List.filter_sublist _)) hwf.2
  have hinvc : ∀ n : String,
      (∃ a ∈ db.roleAssignment.filter
        (fun a => !(a.user._id == P && (anyScope || a.scope == S))),
        a.user._id = P ∧ a.scope = S ∧ a.role._id = n) ↔
      n ∈ ([] : List String) := by
    intro n
    simp only [List.not_mem_nil, iff_false]
    rintro ⟨a, ha, hu, hs2, _⟩
    have hkept := (List.mem_filter.mp ha).2
    simp only [Bool.not_eq_true', Bool.and_eq_false_iff,
      Bool.or_eq_false_iff, beq_eq_false_iff_ne] at hkept
    rcases hkept with h1 | ⟨_, h2⟩
    · exact h1 hu
    · exact h2 hs2
  have hpurec : anyScope = true →
      ∀ a ∈ db.roleAssignment.filter
        (fun a => !(a.user._id == P && (anyScope || a.scope == S))),
        a.user._id = P → a.scope = S := by
    intro hany a ha hu
    have hkept := (List.mem_filter.mp ha).2
    rw [hany] at hkept
    simp only [Bool.not_eq_true', Bool.and_eq_false_iff, Bool.true_or,
      Bool.or_eq_false_iff, beq_eq_false_iff_ne] at hkept
    rcases hkept with h1 | h2
    · exact absurd hu h1
    · simp at h2
  obtain ⟨db', hfold, _, _, hinv', hpure'⟩ :=
    spec_addUserToRole_fold db P hP S hS ifE anyScope roles
      ⟨db.roles, db.roleAssignment.filter
        (fun a => !(a.user._id == P && (anyScope || a.scope == S))),
        db.nextId⟩ [] hroles rfl hwfc hinvc hpurec
  refine ⟨db', ?_, fun r => by simpa using hinv' r, hpure'⟩
  unfold setUserRolesAsync
  rw [_checkScopeName_ok hS]
  show (roles.foldlM (fun acc2 role => spec_addUserToRole acc2 P role S ifE)
      ⟨db.roles, db.roleAssignment.filter
        (fun a => !(a.user._id == P && (anyScope || a.scope == S))),
        db.nextId⟩).bind (fun b => Except.ok b) = Except.ok db'
  rw [hfold]
  rfl

/-- Store with roles `r1`, `r2` and one stale assignment of `r1` to `u`
in scope `old`. -/
def dbC6 : DB :=
  ⟨[⟨"r1", []⟩, ⟨"r2", []⟩],
   [⟨0, ⟨"u"⟩, ⟨"r1"⟩, some "old", some [⟨"r1"⟩]⟩], 1⟩

/-- Closed instance of the full-replace property. -/
theorem c6_setUserRoles_full_replace_witness :
    ∃ db', setUserRolesAsync dbC6 ["u"] ["r1", "r2"] (some "g") false false
        = .ok db' ∧
      (∀ r : String, (∃ a ∈ db'.roleAssignment,
        a.user._id = "u" ∧ a.scope = some "g" ∧ a.role._id = r) ↔
        r ∈ ["r1", "r2"]) ∧
      (false = true → ∀ a ∈ db'.roleAssignment, a.user._id = "u" →
        a.scope = some "g") :=
  c6_setUserRoles_full_replace dbC6 (by decide) "u" (by decide)
    ["r1", "r2"] (some "g") (by decide) false false (by decide)

/-- Occurrences of the old name inside one assignment's `inheritedRoles`. -/
def inhOcc (oldName : String) (a : Assignment) : Nat :=
  (a.inheritedRoles.getD []).countP (fun r => r._id == oldName)

/-- Total occurrences of the old name across all `inheritedRoles` arrays:
the termination measure of the positional rename loop. -/
def inhOccTotal (db : DB) (oldName : String) : Nat :=
  (db.roleAssignment.map (inhOcc oldName)).sum

/-- Occurrences of the old name inside one role's `children`. -/
def childOcc (oldName : String) (r : Role) : Nat :=
  r.children.countP (fun c => c._id == oldName)

/-- Total occurrences of the old name across all `children` arrays. -/
def childOccTotal (db : DB) (oldName : String) : Nat :=
  (db.roles.map (childOcc oldName)).sum

theorem replaceFirst_countP {oldName newName : String}
    (h : oldName ≠ newName) :
    ∀ {l : List DbRef}, l.any (fun r => r._id == oldName) = true →
      (replaceFirst oldName newName l).countP
          (fun r => r._id == oldName) + 1
        = l.countP (fun r => r._id == oldName) := by
  intro l
  induction l with
  | nil => intro h0; cases h0
  | cons r rs ih =>
    intro hany
    by_cases hr : r._id = oldName
    · have hb : (r._id == oldName) = true := by simp [hr]
      have hnew : ((⟨newName⟩ : DbRef)._id == oldName) = false := by
        simp [Ne.symm h]
      simp [replaceFirst, hb, hnew, List.countP_cons]
    · have hb : (r._id == oldName) = false := by simp [hr]
      have hany' : rs.any (fun r => r._id == oldName) = true := by
        simpa [List.any_cons, hb] using hany
      have := ih hany'
      simp [replaceFirst, hb, List.countP_cons, this]

theorem replaceFirst_no_match {oldName newName : String} :
    ∀ {l : List DbRef}, l.any (fun r => r._id == oldName) = false →
      replaceFirst oldName newName l = l := by
  intro l
  induction l with
  | nil => intro _; rfl
  | cons r rs ih =>
    intro hany
    rw [List.any_cons] at hany
    rw [Bool.or_eq_false_iff] at hany
    simp [replaceFirst, hany.1, ih hany.2]

theorem replaceFirst_countP_le {oldName newName : String}
    (h : oldName ≠ newName) (l : List DbRef) :
    (replaceFirst oldName newName l).countP (fun r => r._id == oldName)
      ≤ l.countP (fun r => r._id == oldName) := by
  cases hany : l.any (fun r => r._id == oldName) with
  | true =>
    have := replaceFirst_countP h hany
    omega
  | false => rw [replaceFirst_no_match hany]

/-- The per-document rewrite of the positional `inheritedRoles` loop. -/
def inhRewrite (oldName newName : String) (a : Assignment) : Assignment :=
  if inhMatches a oldName then
    { a with
        inheritedRoles :=
          some (replaceFirst oldName newName (a.inheritedRoles.getD [])) }
  else a

theorem updateInhPositionalAll_eq (db : DB) (oldName newName : String) :
    updateInhPositionalAll db oldName newName =
      ({ db with
          roleAssignment :=
            db.roleAssignment.map (inhRewrite oldName newName) },
       countInhMatches db oldName) := rfl

theorem inhOcc_rewrite_le (oldName newName : String) (h : oldName ≠ newName)
    (a : Assignment) :
    inhOcc oldName (inhRewrite oldName newName a) ≤ inhOcc oldName a := by
  unfold inhRewrite
  by_cases hm : inhMatches a oldName = true
  · rw [if_pos hm]
    unfold inhOcc
    simp only [Option.getD_some]
    exact replaceFirst_countP_le h _
  · rw [if_neg hm]

theorem inhOcc_rewrite_matched (oldName newName : String)
    (h : oldName ≠ newName) {a : Assignment}
    (hm : inhMatches a oldName = true) :
    inhOcc oldName (inhRewrite oldName newName a) + 1 = inhOcc oldName a := by
  unfold inhRewrite
  rw [if_pos hm]
  unfold inhOcc
  simp only [Option.getD_some]
  exact replaceFirst_countP h hm

theorem inhSum_le (oldName newName : String) (h : oldName ≠ newName) :
    ∀ l : List Assignment,
      ((l.map (inhRewrite oldName newName)).map (inhOcc oldName)).sum
        ≤ (l.map (inhOcc oldName)).sum := by
  intro l
  induction l with
  | nil => simp
  | cons a l ih =>
    simp only [List.map_cons, List.sum_cons]
    have := inhOcc_rewrite_le oldName newName h a
    omega

theorem inhSum_lt (oldName newName : String) (h : oldName ≠ newName) :
    ∀ l : List Assignment,
      (l.filter (fun a => inhMatches a oldName)).length > 0 →
      ((l.map (inhRewrite oldName newName)).map (inhOcc oldName)).sum
        < (l.map (inhOcc oldName)).sum := by
  intro l
  induction l with
  | nil => intro h0; cases h0
  | cons a l ih =>
    intro hpos
    simp only [List.map_cons, List.sum_cons]
    by_cases hm : inhMatches a oldName = true
    · have hhead := inhOcc_rewrite_matched oldName newName h hm
      have htail := inhSum_le oldName newName h l
      omega
    · have hpos' : (l.filter (fun a => inhMatches a oldName)).length > 0 := by
        simpa [List.filter_cons, hm] using hpos
      have := ih hpos'
      have hhead := inhOcc_rewrite_le oldName newName h a
      omega

/-- The per-document rewrite of the positional `children` loop. -/
def childRewrite (oldName newName : String) (r : Role) : Role :=
  if childMatches r oldName then
    { r with children := replaceFirst oldName newName r.children }
  else r

theorem updateChildPositionalAll_eq (db : DB) (oldName newName : String) :
    updateChildPositionalAll db oldName newName =
      ({ db with roles := db.roles.map (childRewrite oldName newName) },
       countChildMatches db oldName) := rfl

theorem childOcc_rewrite_le (oldName newName : String)
    (h : oldName ≠ newName) (r : Role) :
    childOcc oldName (childRewrite oldName newName r) ≤ childOcc oldName r := by
  unfold childRewrite
  by_cases hm : childMatches r oldName = true
  · rw [if_pos hm]
    exact replaceFirst_countP_le h _
  · rw [if_neg hm]

theorem childOcc_rewrite_matched (oldName newName : String)
    (h : oldName ≠ newName) {r : Role}
    (hm : childMatches r oldName = true) :
    childOcc oldName (childRewrite oldName newName r) + 1
      = childOcc oldName r := by
  unfold childRewrite
  rw [if_pos hm]
  exact replaceFirst_countP h hm

theorem childSum_le (oldName newName : String) (h : oldName ≠ newName) :
    ∀ l : List Role,
      ((l.map (childRewrite oldName newName)).map (childOcc oldName)).sum
        ≤ (l.map (childOcc oldName)).sum := by
  intro l
  induction l with
  | nil => simp
  | cons a l ih =>
    simp only [List.map_cons, List.sum_cons]
    have := childOcc_rewrite_le oldName newName h a
    omega

theorem childSum_lt (oldName newName : String) (h : oldName ≠ newName) :
    ∀ l : List Role,
      (l.filter (fun r => childMatches r oldName)).length > 0 →
      ((l.map (childRewrite oldName newName)).map (childOcc oldName)).sum
        < (l.map (childOcc oldName)).sum := by
  intro l
  induction l with
  | nil => intro h0; cases h0
  | cons a l ih =>
    intro hpos
    simp only [List.map_cons, List.sum_cons]
    by_cases hm : childMatches a oldName = true
    · have hhead := childOcc_rewrite_matched oldName newName h hm
      have htail := childSum_le oldName newName h l
      omega
    · have hpos' : (l.filter (fun r => childMatches r oldName)).length > 0 := by
        simpa [List.filter_cons, hm] using hpos
      have := ih hpos'
      have hhead := childOcc_rewrite_le oldName newName h a
      omega

theorem renameInhLoop_succ (oldName newName : String) (fuel : Nat)
    (db : DB) :
    renameInhLoop oldName newName (fuel + 1) db =
      if (updateInhPositionalAll db oldName newName).2 > 0 then
        renameInhLoop oldName newName fuel
          (updateInhPositionalAll db oldName newName).1
      else some (updateInhPositionalAll db oldName newName).1 := rfl

theorem renameChildLoop_succ (oldName newName : String) (fuel : Nat)
    (db : DB) :
    renameChildLoop oldName newName (fuel + 1) db =
      if (updateChildPositionalAll db oldName newName).2 > 0 then
        renameChildLoop oldName newName fuel
          (updateChildPositionalAll db oldName newName).1
      else some (updateChildPositionalAll db oldName newName).1 := rfl

theorem renameScopeLoop_succ (oldName newName : Option String) (fuel : Nat)
    (db : DB) :
    renameScopeLoop oldName newName (fuel + 1) db =
      if (updateScopeAll db oldName newName).2 > 0 then
        renameScopeLoop oldName newName fuel
          (updateScopeAll db oldName newName).1
      else some (updateScopeAll db oldName newName).1 := rfl

theorem renameRoleIdLoop_succ (oldName newName : String) (fuel : Nat)
    (db : DB) :
    renameRoleIdLoop oldName newName (fuel + 1) db =
      if (updateAssignmentRoleIdAll db oldName newName).2 > 0 then
        renameRoleIdLoop oldName newName fuel
          (updateAssignmentRoleIdAll db oldName newName).1
      else some (updateAssignmentRoleIdAll db oldName newName).1 := rfl

theorem renameInhLoop_term (oldName newName : String)
    (h : oldName ≠ newName) :
    ∀ fuel db, inhOccTotal db oldName < fuel →
      (renameInhLoop oldName newName fuel db).isSome := by
  intro fuel
  induction fuel with
  | zero => intro db h0; omega
  | succ n ih =>
    intro db hlt
    rw [renameInhLoop_succ]
    have hc2 : (updateInhPositionalAll db oldName newName).2
        = countInhMatches db oldName := rfl
    by_cases hc : countInhMatches db oldName > 0
    · rw [hc2, if_pos hc]
      apply ih
      have hdec : inhOccTotal (updateInhPositionalAll db oldName newName).1
          oldName < inhOccTotal db oldName :=
        inhSum_lt oldName newName h db.roleAssignment hc
      omega
    · rw [hc2, if_neg hc]
      rfl

theorem renameChildLoop_term (oldName newName : String)
    (h : oldName ≠ newName) :
    ∀ fuel db, childOccTotal db oldName < fuel →
      (renameChildLoop oldName newName fuel db).isSome := by
  intro fuel
  induction fuel with
  | zero => intro db h0; omega
  | succ n ih =>
    intro db hlt
    rw [renameChildLoop_succ]
    have hc2 : (updateChildPositionalAll db oldName newName).2
        = countChildMatches db oldName := rfl
    by_cases hc : countChildMatches db oldName > 0
    · rw [hc2, if_pos hc]
      apply ih
      have hdec : childOccTotal
          (updateChildPositionalAll db oldName newName).1 oldName
          < childOccTotal db oldName :=
        childSum_lt oldName newName h db.roles hc
      omega
    · rw [hc2, if_neg hc]
      rfl

theorem countScopeMatches_after (db : DB) (oldName newName : Option String)
    (h : oldName ≠ newName) :
    countScopeMatches (updateScopeAll db oldName newName).1 oldName = 0 := by
  unfold updateScopeAll countScopeMatches
  rw [List.length_eq_zero, List.filter_eq_nil_iff]
  intro a ha
  obtain ⟨b, _, rfl⟩ := List.mem_map.mp ha
  by_cases hbs : (b.scope == oldName) = true
  · simp [hbs, Ne.symm h]
  · simp only [hbs, if_false]
    simp at hbs
    simp [hbs]

theorem renameScopeLoop_two (oldName newName : Option String)
    (h : oldName ≠ newName) (db : DB) :
    (renameScopeLoop oldName newName 2 db).isSome := by
  rw [show (2 : Nat) = 1 + 1 from rfl, renameScopeLoop_succ]
  have hc2 : (updateScopeAll db oldName newName).2
      = countScopeMatches db oldName := rfl
  by_cases hc : countScopeMatches db oldName > 0
  · rw [hc2, if_pos hc, renameScopeLoop_succ]
    have h0 : (updateScopeAll (updateScopeAll db oldName newName).1
        oldName newName).2 = 0 := countScopeMatches_after db oldName newName h
    rw [h0]
    rfl
  · rw [hc2, if_neg hc]
    rfl

theorem countRoleIdMatches_after (db : DB) (oldName newName : String)
    (h : oldName ≠ newName) :
    countRoleIdMatches (updateAssignmentRoleIdAll db oldName newName).1
      oldName = 0 := by
  unfold updateAssignmentRoleIdAll countRoleIdMatches
  rw [List.length_eq_zero, List.filter_eq_nil_iff]
  intro a ha
  obtain ⟨b, _, rfl⟩ := List.mem_map.mp ha
  by_cases hbs : (b.role._id == oldName) = true
  · simp [hbs, Ne.symm h]
  · simp only [hbs, if_false]
    simp at hbs
    simp [hbs]

theorem renameRoleIdLoop_two (oldName newName : String)
    (h : oldName ≠ newName) (db : DB) :
    (renameRoleIdLoop oldName newName 2 db).isSome := by
  rw [show (2 : Nat) = 1 + 1 from rfl, renameRoleIdLoop_succ]
  have hc2 : (updateAssignmentRoleIdAll db oldName newName).2
      = countRoleIdMatches db oldName := rfl
  by_cases hc : countRoleIdMatches db oldName > 0
  · rw [hc2, if_pos hc, renameRoleIdLoop_succ]
    have h0 : (updateAssignmentRoleIdAll
        (updateAssignmentRoleIdAll db oldName newName).1 oldName newName).2
        = 0 := countRoleIdMatches_after db oldName newName h
    rw [h0]
    rfl
  · rw [hc2, if_neg hc]
    rfl

theorem renameScopeLoop_equal_none (oldName : Option String) :
    ∀ fuel db, 0 < countScopeMatches db oldName →
      renameScopeLoop oldName oldName fuel db = none := by
  intro fuel
  induction fuel with
  | zero => intro db _; rfl
  | succ n ih =>
    intro db h0
    rw [renameScopeLoop_succ]
    have hmapid : db.roleAssignment.map (fun a =>
        if a.scope == oldName then { a with scope := oldName } else a)
        = db.roleAssignment := by
      apply map_id_of_mem
      intro a ha
      by_cases hs : a.scope = oldName
      · rw [if_pos (by simp [hs])]
        rw [← hs]
      · rw [if_neg (by simp [hs])]
    have hupd : updateScopeAll db oldName oldName =
        (db, countScopeMatches db oldName) := by
      unfold updateScopeAll
      rw [hmapid]
    rw [hupd, if_pos h0]
    exact ih db h0


/-- C9: `renameScope` and `renameRole` return at once, writing nothing,
when old and new names coincide; with distinct names every
converge-until-stable loop terminates: the two scalar-field loops after
two updates (the first rewrite clears every match), the two positional
(`$`) loops within fuel equal to the total occurrence count of the old
name (each pass rewrites one occurrence per matching document, strictly
decreasing that count); and without the equal-names early return the
`renameScope` loop would match its own output forever (it returns within
no finite fuel whenever any document matches). -/
theorem c9_rename_equal_noop_and_loops_terminate :
    (∀ (fuel : Nat) (db : DB) (oldName : Option String),
      scopeNameValid oldName →
      renameScopeAsync fuel oldName oldName db = .ok (some db)) ∧
    (∀ (fuel : Nat) (db : DB) (name : String), roleNameValid name →
      renameRoleAsync fuel name name db = .ok (some db)) ∧
    (∀ (oldName newName : Option String) (db : DB), oldName ≠ newName →
      (renameScopeLoop oldName newName 2 db).isSome) ∧
    (∀ (oldName newName : String) (db : DB), oldName ≠ newName →
      (renameRoleIdLoop oldName newName 2 db).isSome) ∧
    (∀ (oldName newName : String) (db : DB), oldName ≠ newName →
      (renameInhLoop oldName newName (inhOccTotal db oldName + 1) db).isSome) ∧
    (∀ (oldName newName : String) (db : DB), oldName ≠ newName →
      (renameChildLoop oldName newName
        (childOccTotal db oldName + 1) db).isSome) ∧
    (∀ (oldName : Option String) (fuel : Nat) (db : DB),
      0 < countScopeMatches db oldName →
      renameScopeLoop oldName oldName fuel db = none) := by
  refine ⟨?_, ?_, ?_, ?_, ?_, ?_, ?_⟩
  · intro fuel db oldName h
    simp [renameScopeAsync, _checkScopeName_ok h]
  · intro fuel db name h
    simp [renameRoleAsync, _checkRoleName_ok h]
  · intro oldName newName db h
    exact renameScopeLoop_two oldName newName h db
  · intro oldName newName db h
    exact renameRoleIdLoop_two oldName newName h db
  · intro oldName newName db h
    exact renameInhLoop_term oldName newName h _ db (Nat.lt_succ_self _)
  · intro oldName newName db h
    exact renameChildLoop_term oldName newName h _ db (Nat.lt_succ_self _)
  · intro oldName fuel db h
    exact renameScopeLoop_equal_none oldName fuel db h

/-- Store with one scoped assignment and one role edge, exercising every
rename loop. -/
def dbC9 : DB :=
  ⟨[⟨"p", [⟨"a"⟩]⟩], [⟨0, ⟨"u"⟩, ⟨"a"⟩, some "a", some [⟨"a"⟩, ⟨"a"⟩]⟩], 1⟩

/-- Closed instance of the rename no-op and termination properties. -/
theorem c9_rename_equal_noop_and_loops_terminate_witness :
    renameScopeAsync 1 (some "a") (some "a") dbC9 = .ok (some dbC9) ∧
    renameRoleAsync 1 "a" "a" dbC9 = .ok (some dbC9) ∧
    (renameScopeLoop (some "a") (some "b") 2 dbC9).isSome ∧
    (renameRoleIdLoop "a" "b" 2 dbC9).isSome ∧
    (renameInhLoop "a" "b" (inhOccTotal dbC9 "a" + 1) dbC9).isSome ∧
    (renameChildLoop "a" "b" (childOccTotal dbC9 "a" + 1) dbC9).isSome ∧
    renameScopeLoop (some "a") (some "a") 5 dbC9 = none :=
  ⟨c9_rename_equal_noop_and_loops_terminate.1 1 dbC9 (some "a") (by decide),
   c9_rename_equal_noop_and_loops_terminate.2.1 1 dbC9 "a" (by decide),
   c9_rename_equal_noop_and_loops_terminate.2.2.1 _ _ dbC9 (by decide),
   c9_rename_equal_noop_and_loops_terminate.2.2.2.1 _ _ dbC9 (by decide),
   c9_rename_equal_noop_and_loops_terminate.2.2.2.2.1 _ _ dbC9 (by decide),
   c9_rename_equal_noop_and_loops_terminate.2.2.2.2.2.1 _ _ dbC9 (by decide),
   c9_rename_equal_noop_and_loops_terminate.2.2.2.2.2.2 _ 5 dbC9 (by decide)⟩

theorem jsPop_isSome : ∀ {l : List String}, l ≠ [] → (jsPop l).isSome := by
  intro l
  induction l with
  | nil => intro h; exact absurd rfl h
  | cons x xs ih =>
    intro _
    cases xs with
    | nil => rfl
    | cons y rest =>
      have h2 := ih (by simp)
      unfold jsPop
      cases hrec : jsPop (y :: rest) with
      | none =>
        rw [hrec] at h2
        cases h2
      | some p =>
        cases p
        simp [hrec]

theorem jsPop_none {l : List String} (h : jsPop l = none) : l = [] := by
  cases l with
  | nil => rfl
  | cons x xs =>
    have h2 : (jsPop (x :: xs)).isSome := jsPop_isSome (by simp)
    rw [h] at h2
    cases h2

theorem jsPop_some_append :
    ∀ {l : List String} {y : String} {ys : List String},
      jsPop l = some (y, ys) → l = ys ++ [y] := by
  intro l
  induction l with
  | nil => intro y ys h; cases h
  | cons x xs ih =>
    intro y ys h
    cases xs with
    | nil =>
      simp [jsPop] at h
      obtain ⟨h1, h2⟩ := h
      subst h1
      subst h2
      rfl
    | cons z rest =>
      unfold jsPop at h
      cases hrec : jsPop (z :: rest) with
      | none =>
        rw [hrec] at h
        cases h
      | some p =>
        cases p with
        | mk w ws =>
          rw [hrec] at h
          simp only [Option.some.injEq, Prod.mk.injEq] at h
          obtain ⟨h1, h2⟩ := h
          have hrest := ih hrec
          rw [← h2, ← h1]
          rw [List.cons_append, ← hrest]

theorem dfsLoop_pop_none (db : DB) (target : String) (fuel : Nat)
    {stack : List String} (hpop : jsPop stack = none) :
    dfsLoop db target fuel stack = some false := by
  cases fuel <;> (unfold dfsLoop; rw [hpop])

theorem dfsLoop_zero_some (db : DB) (target : String)
    {stack : List String} {y : String} {rest : List String}
    (hpop : jsPop stack = some (y, rest)) :
    dfsLoop db target 0 stack = none := by
  unfold dfsLoop
  rw [hpop]

theorem dfsLoop_succ_some (db : DB) (target : String) (n : Nat)
    {stack : List String} {y : String} {rest : List String}
    (hpop : jsPop stack = some (y, rest)) :
    dfsLoop db target (n + 1) stack =
      if y = target then some true
      else
        match findOneRole db y with
        | none => dfsLoop db target n rest
        | some role =>
          dfsLoop db target n (rest ++ role.children.map DbRef._id) := by
  conv_lhs => unfold dfsLoop
  rw [hpop]

/-- Whenever the fuelled search loop terminates, its verdict is exactly
reachability of the target from some stack entry. -/
theorem dfsLoop_some_iff (db : DB) (target : String) :
    ∀ (fuel : Nat) (stack : List String) (b : Bool),
      dfsLoop db target fuel stack = some b →
      (b = true ↔ ∃ x ∈ stack, Reach db x target) := by
  intro fuel
  induction fuel with
  | zero =>
    intro stack b h
    cases hpop : jsPop stack with
    | none =>
      rw [dfsLoop_pop_none db target 0 hpop] at h
      have hstack := jsPop_none hpop
      simp only [Option.some.injEq] at h
      subst hstack
      rw [← h]
      simp
    | some p =>
      cases p with
      | mk y rest =>
        rw [dfsLoop_zero_some db target hpop] at h
        cases h
  | succ n ih =>
    intro stack b h
    cases hpop : jsPop stack with
    | none =>
      rw [dfsLoop_pop_none db target (n + 1) hpop] at h
      have hstack := jsPop_none hpop
      simp only [Option.some.injEq] at h
      subst hstack
      rw [← h]
      simp
    | some p =>
      cases p with
      | mk y rest =>
        rw [dfsLoop_succ_some db target n hpop] at h
        have hstack := jsPop_some_append hpop
        by_cases hy : y = target
        · rw [if_pos hy] at h
          simp only [Option.some.injEq] at h
          rw [← h]
          constructor
          · intro _
            refine ⟨y, ?_, by rw [hy]; exact Reach.refl target⟩
            rw [hstack]
            simp
          · intro _
            rfl
        · rw [if_neg hy] at h
          cases hrole : findOneRole db y with
          | none =>
            rw [hrole] at h
            rw [ih rest b h]
            constructor
            · rintro ⟨x, hx, hr⟩
              refine ⟨x, ?_, hr⟩
              rw [hstack]
              exact List.mem_append.mpr (Or.inl hx)
            · rintro ⟨x, hx, hr⟩
              rw [hstack] at hx
              rcases List.mem_append.mp hx with hx | hx
              · exact ⟨x, hx, hr⟩
              · rw [List.mem_singleton] at hx
                subst hx
                cases hr with
                | refl => exact absurd rfl hy
                | step role hfind hc hr2 =>
                  rw [hrole] at hfind
                  cases hfind
          | some role =>
            rw [hrole] at h
            rw [ih (rest ++ role.children.map DbRef._id) b h]
            constructor
            · rintro ⟨x, hx, hr⟩
              rcases List.mem_append.mp hx with hx | hx
              · refine ⟨x, ?_, hr⟩
                rw [hstack]
                exact List.mem_append.mpr (Or.inl hx)
              · refine ⟨y, ?_, Reach.step role hrole hx hr⟩
                rw [hstack]
                simp
            · rintro ⟨x, hx, hr⟩
              rw [hstack] at hx
              rcases List.mem_append.mp hx with hx | hx
              · exact ⟨x, List.mem_append.mpr (Or.inl hx), hr⟩
              · rw [List.mem_singleton] at hx
                subst hx
                cases hr with
                | refl => exact absurd rfl hy
                | step role2 hfind hc hr2 =>
                  rw [hrole] at hfind
                  injection hfind with hEq
                  subst hEq
                  exact ⟨_, List.mem_append.mpr (Or.inr hc), hr2⟩

/-- C8: `isParentOf` short-circuits to `true` on equal names before any
other check (null check and name validation included); otherwise, whenever
the iterative depth-first search over `children` edges completes, its
answer is `true` exactly when the descendant is reachable from the
ancestor — a name met during the search without a role document is
skipped without raising an error (it contributes no edges in `Reach` but
can still be matched as the target), and `false` is returned when the
target is never found. -/
theorem c8_isParentOf_dfs_reach :
    (∀ (db : DB) (fuel : Nat) (a : Option String),
      isParentOfAsync db fuel a a = some (.ok true)) ∧
    (∀ (db : DB) (fuel : Nat) (p c : String) (b : Bool),
      isParentOfAsync db fuel (some p) (some c) = some (.ok b) →
      (b = true ↔ Reach db p c)) := by
  constructor
  · intro db fuel a
    unfold isParentOfAsync
    rw [if_pos rfl]
  · intro db fuel p c b h
    by_cases hpc : p = c
    · subst hpc
      unfold isParentOfAsync at h
      rw [if_pos rfl] at h
      simp only [Option.some.injEq, Except.ok.injEq] at h
      rw [← h]
      exact ⟨fun _ => Reach.refl p, fun _ => rfl⟩
    · have hform : isParentOfAsync db fuel (some p) (some c) =
          (match _checkRoleName p with
            | .error e => some (.error e)
            | .ok _ =>
              match _checkRoleName c with
              | .error e => some (.error e)
              | .ok _ => (dfsLoop db c fuel [p]).map Except.ok) := by
        unfold isParentOfAsync
        rw [if_neg (by simp [hpc])]
      rw [hform] at h
      cases hc1 : _checkRoleName p with
      | error e =>
        rw [hc1] at h
        simp at h
      | ok u0 =>
        cases u0
        rw [hc1] at h
        cases hc2 : _checkRoleName c with
        | error e =>
          rw [hc2] at h
          simp at h
        | ok u1 =>
          cases u1
          rw [hc2] at h
          simp only [Option.map_eq_some'] at h
          obtain ⟨b', hb', hfb⟩ := h
          injection hfb with hEq
          subst hEq
          rw [dfsLoop_some_iff db c fuel [p] b' hb']
          simp

/-- Roles `a → b` with a dangling child edge `b → c` (no record for `c`). -/
def dbC8 : DB := ⟨[⟨"a", [⟨"b"⟩]⟩, ⟨"b", [⟨"c"⟩]⟩], [], 0⟩

/-- Closed instance: equal-name short-circuit, and the completed search on
a concrete graph agrees with reachability across a dangling edge. -/
theorem c8_isParentOf_dfs_reach_witness :
    isParentOfAsync dbC8 5 (some "x") (some "x") = some (.ok true) ∧
    Reach dbC8 "a" "c" :=
  ⟨c8_isParentOf_dfs_reach.1 dbC8 5 (some "x"),
   (c8_isParentOf_dfs_reach.2 dbC8 5 "a" "c" true (by rfl)).mp rfl⟩

end Roles
